import Mathlib

/-!
# Verification of `model_fit.py` (photon-tools)

A shallow embedding of the multi-curve least-squares fitting framework in
`src/model_fit.py`, together with theorems settling the specification's
claims about it.

Python floats are modelled by `ℚ`; numpy vectors by `List ℚ`; Python dicts
by insertion-ordered association lists; exceptions by `Except PyError`.
-/

/-- The Python exceptions the embedded code can raise. -/
inductive PyError where
  /-- `KeyError` from a missing dict key. -/
  | keyError : PyError
  /-- `NameError` from reading an unbound name. -/
  | nameError : PyError
  /-- `IndexError` from an out-of-range index. -/
  | indexError : PyError
  /-- `RuntimeError(msg)`. -/
  | runtimeError (msg : String) : PyError
  /-- A bare `Exception(msg)`. -/
  | exception (msg : String) : PyError
deriving DecidableEq, Repr

/-- The value held by a parameter: a scalar, or a per-curve list. -/
inductive Value where
  | scalar (x : ℚ) : Value
  | list (xs : List ℚ) : Value
deriving DecidableEq, Repr

/-- A `Parameter` object after `Parameters.__init__` has set its
`scope` and `value` attributes (`model_fit.py` lines 24-29, 37-41). -/
structure Param where
  name : String
  scope : String
  value : Value
deriving DecidableEq, Repr

/-- One entry of the `curves` list: a dict with keys `lag`, `G`, `var`. -/
structure Curve where
  lag : List ℚ
  G : List ℚ
  var : List ℚ
deriving DecidableEq, Repr

/-- The `Parameters` container (`model_fit.py` lines 31-83).  It subclasses
`dict`; the dict is modelled as the insertion-ordered list `params`, whose
keys are the parameters' names (that is how `__init__` builds it).  The
attributes `_fitted` and `_fixed` only exist after `validate()`; before it
they are modelled by the empty default. -/
structure Parameters where
  curves : List Curve
  params : List Param
  fitted : List String := []
  fixed : List String := []
deriving DecidableEq, Repr

/-- A model's fit function `model(cparams, x)`: from a full per-curve
parameter dict and a domain vector to a value vector. -/
def ModelFn : Type := List (String × ℚ) → List ℚ → List ℚ

/-- Dict read `self[k]`: the first (unique, for a real dict) entry whose
key is `k`; `KeyError` when absent. -/
def getItem (dict : List Param) (k : String) : Except PyError Param :=
  match dict.find? (fun p => p.name = k) with
  | some p => .ok p
  | none => .error .keyError

/-- `self[k].value = v`: look up the entry for `k` (raising `KeyError` when
absent, as `self[k]` does) and overwrite that object's `value` attribute. -/
def setValue (k : String) (v : Value) : List Param → Except PyError (List Param)
  | [] => .error .keyError
  | p :: rest =>
    if p.name = k then .ok ({ p with value := v } :: rest)
    else do
      let r ← setValue k v rest
      .ok (p :: r)

/-- `packed[i]` on a numpy vector: `IndexError` when out of range. -/
def getIndex (packed : List ℚ) (i : Nat) : Except PyError ℚ :=
  match packed[i]? with
  | some x => .ok x
  | none => .error .indexError

/-- The loop body of `Parameters.validate` (lines 47-53): walk the dict's
values in insertion order, collecting names of `fitted` and of `fixed`
parameters; any other scope raises `RuntimeError('Invalid scope')`. -/
def classifyScopes : List Param → Except PyError (List String × List String)
  | [] => .ok ([], [])
  | p :: rest =>
    if p.scope = "fitted" then do
      let (ft, fx) ← classifyScopes rest
      .ok (p.name :: ft, fx)
    else if p.scope = "fixed" then do
      let (ft, fx) ← classifyScopes rest
      .ok (ft, p.name :: fx)
    else .error (.runtimeError "Invalid scope")

/-- `Parameters.validate` (lines 43-53): set `_fitted` and `_fixed`. -/
def Parameters.validate (ps : Parameters) : Except PyError Parameters := do
  let (ft, fx) ← classifyScopes ps.params
  .ok { ps with fitted := ft, fixed := fx }

/-- In `_unpack`'s test `isinstance(self[k], list)`, the object `self[k]`
is a `Parameter` instance, which is never a Python `list`; the test is
always false.  (`_pack` tests `self[k].value` instead.) -/
def paramIsinstanceList ( _p : Param) : Bool := false

/-- The loop of `Parameters._unpack` (lines 57-65): `n = len(self.curves)`,
`i` the running offset, `ks` the remainder of `self._fitted`.  When
`isinstance(self[k], list)` held, the slice `packed[i:i+n]` would be taken
(a Python slice never raises); in fact the test is always false and each
fitted parameter is assigned the single element `packed[i]`. -/
def unpackGo (n : Nat) (packed : List ℚ) :
    List Param → Nat → List String → Except PyError (List Param)
  | dict, _, [] => .ok dict
  | dict, i, k :: ks => do
    let p ← getItem dict k
    if paramIsinstanceList p then
      let d ← setValue k (.list ((packed.drop i).take n)) dict
      unpackGo n packed d (i + n) ks
    else
      let x ← getIndex packed i
      let d ← setValue k (.scalar x) dict
      unpackGo n packed d (i + 1) ks

/-- `Parameters._unpack(packed)` (lines 55-65). -/
def Parameters.unpack (ps : Parameters) (packed : List ℚ) :
    Except PyError Parameters := do
  let d ← unpackGo ps.curves.length packed ps.params 0 ps.fitted
  .ok { ps with params := d }

/-- The loop of `Parameters._pack` (lines 69-74): for each fitted name,
`extend` with the value when it is a list, `append` it otherwise. -/
def packGo (dict : List Param) : List String → Except PyError (List ℚ)
  | [] => .ok []
  | k :: ks => do
    let p ← getItem dict k
    let rest ← packGo dict ks
    match p.value with
    | .list xs => .ok (xs ++ rest)
    | .scalar x => .ok (x :: rest)

/-- `Parameters._pack()` (lines 67-75). -/
def Parameters.pack (ps : Parameters) : Except PyError (List ℚ) :=
  packGo ps.params ps.fitted

/-- The loop of `Parameters._curve_params` (lines 80-82).  The body reads
`v[i] if isinstance(v, list) else v`; the name `i` is bound nowhere in the
function (its argument is named `curve`), so the `v[i]` branch raises
`NameError` as soon as some parameter's value is a list. -/
def curveParamsGo : List Param → Except PyError (List (String × ℚ))
  | [] => .ok []
  | p :: rest =>
    match p.value with
    | .list _ => .error .nameError
    | .scalar x => do
      let r ← curveParamsGo rest
      .ok ((p.name, x) :: r)

/-- `Parameters._curve_params(curve)` (lines 77-83).  The `curve` argument
is never read by the body. -/
def Parameters.curveParams (ps : Parameters) ( _curve : Nat) :
    Except PyError (List (String × ℚ)) :=
  curveParamsGo ps.params

/-- Element-wise subtraction of two numpy vectors. -/
def ewSub (a b : List ℚ) : List ℚ := a.zipWith (fun x y => x - y) b

/-- Element-wise division of two numpy vectors. -/
def ewDiv (a b : List ℚ) : List ℚ := a.zipWith (fun x y => x / y) b

/-- Element-wise square of a numpy vector (`v**2`). -/
def ewSq (a : List ℚ) : List ℚ := a.map (fun x => x * x)

/-- The loop of `_compute_error` (lines 118-122): for each curve `c` at
enumeration index `i`, extend `err` with `(c['G'] - G) / c['var']**2`
where `G = model(cparams, c['lag'])`. -/
def computeErrorGo (psU : Parameters) (mdl : ModelFn) :
    Nat → List Curve → Except PyError (List ℚ)
  | _, [] => .ok []
  | i, c :: rest => do
    let cparams ← psU.curveParams i
    let G := mdl cparams c.lag
    let r ← computeErrorGo psU mdl (i + 1) rest
    .ok (ewDiv (ewSub c.G G) (ewSq c.var) ++ r)

/-- `_compute_error(p, curves, params, model)` (lines 115-125): unpack the
trial vector into the container, then accumulate the per-curve residuals
in curve order. -/
def computeError (p : List ℚ) (curves : List Curve) (ps : Parameters)
    (mdl : ModelFn) : Except PyError (List ℚ) := do
  let psU ← ps.unpack p
  computeErrorGo psU mdl 0 curves

/-- The tuple returned by `scipy.optimize.leastsq(..., full_output=True)`,
restricted to the components `fit` reads: the solution vector `p` and the
covariance `cov_x`, which is `None` when the fit could not be certified. -/
structure SolverResult where
  p : List ℚ
  cov_x : Option (List (List ℚ))
deriving DecidableEq, Repr

/-- The type of the external solver `scipy.optimize.leastsq`: it receives
the residual function and the start vector and either returns a
`SolverResult` or lets an exception raised inside the residual escape. -/
def Leastsq : Type :=
  (List ℚ → Except PyError (List ℚ)) → List ℚ → Except PyError SolverResult

/-- A deep copy of an immutable Lean value is the value itself; this marks
the source line `params = deepcopy(params)`. -/
def deepcopyParams (ps : Parameters) : Parameters := ps

/-- The body of `fit` after the deep copy (lines 133-141): validate the
container, pack the start vector, call the solver on the residual closure,
raise `RuntimeError('Fit failed to converge (flat axis)')` when
`cov_x is None`, otherwise unpack the final vector and return the
container. -/
def fitBody (leastsq : Leastsq) (curves : List Curve) (mdl : ModelFn)
    (params : Parameters) : Except PyError Parameters := do
  let params ← params.validate
  let p0 ← params.pack
  let res ← leastsq (fun p => computeError p curves params mdl) p0
  match res.cov_x with
  | none => .error (.runtimeError "Fit failed to converge (flat axis)")
  | some _ => params.unpack res.p

/-- `fit(curves, model, params)` (lines 127-141), with `leastsq` passed as
an oracle: the first statement `params = deepcopy(params)` replaces the
caller's object by a deep copy, and the rest is `fitBody` on the copy. -/
def fit (leastsq : Leastsq) (curves : List Curve) (mdl : ModelFn)
    (params : Parameters) : Except PyError Parameters :=
  fitBody leastsq curves mdl (deepcopyParams params)

/-- `fit` with the caller's object tracked explicitly.  In Python the
argument is a reference to the caller's `Parameters` object and the methods
`fit` invokes (`validate`, `_unpack`) mutate the object they are called on;
the source's first statement `params = deepcopy(params)` rebinds the local
name to a deep copy, so every later mutation acts on the copy.  The second
component is the caller's object as the caller sees it after the call. -/
def fitWithCaller (leastsq : Leastsq) (curves : List Curve) (mdl : ModelFn)
    (ps : Parameters) : (Except PyError Parameters) × Parameters :=
  let caller := ps
  let working := deepcopyParams ps
  (fitBody leastsq curves mdl working, caller)

/-- The process-wide model registry `models` (line 14): a dict from name
to registered class. -/
structure PyClass where
  clsName : String
  /-- `issubclass(cls, Model)`. -/
  inheritsModel : Bool
deriving DecidableEq, Repr

/-- Python dict assignment `d[k] = v`: overwrite in place when the key
exists, append otherwise. -/
def dictSet : List (String × PyClass) → String → PyClass → List (String × PyClass)
  | [], k, v => [(k, v)]
  | (k', v') :: rest, k, v =>
    if k' = k then (k, v) :: rest else (k', v') :: dictSet rest k v

/-- `register_model(*names)` applied to a class `cls` (lines 15-22), as a
transformer of the registry: raise before touching the registry when `cls`
does not inherit from `Model`, otherwise store `cls` under every name (a
plain dict assignment: an existing name is silently overwritten) and
return the class unchanged. -/
def registerModel (names : List String) (cls : PyClass)
    (registry : List (String × PyClass)) :
    Except PyError (PyClass × List (String × PyClass)) :=
  if ¬ cls.inheritsModel then
    .error (.exception "Registering model that doesn't inherit from model")
  else
    .ok (cls, names.foldl (fun acc n => dictSet acc n cls) registry)

/-- Registry read `models[n]`, as an `Option`. -/
def lookupClass (registry : List (String × PyClass)) (n : String) :
    Option PyClass :=
  (registry.find? (fun e => e.1 = n)).map (fun e => e.2)

deriving instance DecidableEq for Except

/-- The parameters with scope `fitted`, in declaration (dict-insertion)
order. -/
def fittedParams (l : List Param) : List Param :=
  l.filter (fun p => p.scope == "fitted")

/-- The block of numbers a parameter contributes to the packed vector:
its list when the value is a list, the singleton of its scalar otherwise. -/
def valueBlock (p : Param) : List ℚ :=
  match p.value with
  | .list xs => xs
  | .scalar x => [x]

/-- Whether a value is a per-curve list. -/
def isListValue : Value → Bool
  | .list _ => true
  | .scalar _ => false

/-- Whether a parameter's value, when it is a per-curve list, has exactly
one element per curve (`n` = number of curves). -/
def perCurveLenOk (n : Nat) (p : Param) : Bool :=
  match p.value with
  | .list xs => xs.length == n
  | .scalar _ => true

/-- The residual in the specification's words: for every curve `i` in
order, the element-wise `(G - model(curve_params(i), lag)) / var**2`, all
per-curve vectors concatenated in curve order.  Declared separately from
`computeError` (the source's `_compute_error`) so that the two can be
compared. -/
def specResidual (psU : Parameters) (mdl : ModelFn) (curves : List Curve) :
    Except PyError (List ℚ) :=
  (curves.enum.mapM fun (ic : Nat × Curve) => do
    let cp ← psU.curveParams ic.1
    pure (ewDiv (ewSub ic.2.G (mdl cp ic.2.lag)) (ewSq ic.2.var))).map
    List.flatten

/-! ## Concrete fixtures used to exercise the embedding -/

/-- A curve with empty data vectors. -/
def cv0 : Curve := ⟨[], [], []⟩

/-- A curve with one sample point. -/
def cv1 : Curve := ⟨[1], [4], [2]⟩

/-- A trivial model function: return the domain vector itself. -/
def mdl0 : ModelFn := fun _ x => x

/-- A well-behaved solver oracle: it returns its start vector unchanged
with a present covariance. -/
def leastsq0 : Leastsq := fun _f v => .ok ⟨v, some [[1]]⟩

/-- Two curves; a per-curve fitted parameter and a scalar fitted one. -/
def psRT : Parameters :=
  { curves := [cv0, cv0]
    params := [⟨"a", "fitted", .list [1, 2]⟩, ⟨"b", "fitted", .scalar 5⟩] }

/-- `psRT` after `validate()`. -/
def psRTv : Parameters := { psRT with fitted := ["a", "b"], fixed := [] }

/-- What `unpack(pack())` actually turns `psRTv` into. -/
def psRTbad : Parameters :=
  { psRTv with
    params := [⟨"a", "fitted", .scalar 1⟩, ⟨"b", "fitted", .scalar 2⟩] }

/-- One curve; a single per-curve (list-valued) parameter. -/
def psCP : Parameters :=
  { curves := [cv0]
    params := [⟨"d", "fixed", .list [1, 2]⟩] }

/-- One curve; a single scalar fitted parameter. -/
def psLen : Parameters :=
  { curves := [cv0], params := [⟨"a", "fitted", .scalar 3⟩] }

/-- `psLen` after `validate()`. -/
def psLenV : Parameters := { psLen with fitted := ["a"], fixed := [] }

/-- A container with an invalid scope string. -/
def psBadScope : Parameters :=
  { curves := [cv0], params := [⟨"a", "bogus", .scalar 3⟩] }

/-- One fitted and one fixed parameter. -/
def psMix : Parameters :=
  { curves := [cv0]
    params := [⟨"a", "fitted", .scalar 3⟩, ⟨"b", "fixed", .scalar 7⟩] }

/-- `psMix` after `validate()`. -/
def psMixV : Parameters := { psMix with fitted := ["a"], fixed := ["b"] }

/-- Two curves; fitted scalar, fitted per-curve list, fixed scalar. -/
def psShape : Parameters :=
  { curves := [cv0, cv0]
    params := [⟨"a", "fitted", .scalar 3⟩, ⟨"b", "fitted", .list [1, 2]⟩,
               ⟨"c", "fixed", .scalar 9⟩] }

/-- `psShape` after `validate()`. -/
def psShapeV : Parameters :=
  { psShape with fitted := ["a", "b"], fixed := ["c"] }

/-- A registered class that inherits from `Model`. -/
def clsA : PyClass := ⟨"A", true⟩

/-- Another class inheriting from `Model`. -/
def clsB : PyClass := ⟨"B", true⟩

/-- A class that does not inherit from `Model`. -/
def clsBad : PyClass := ⟨"Bad", false⟩

/-! ## Reduction lemmas for the `Except` monad -/

/-- `>>=` on an `ok` value reduces to the continuation. -/
@[simp] theorem bindE_ok {α β : Type} (a : α) (f : α → Except PyError β) :
    (Except.ok a >>= f) = f a := rfl

/-- `>>=` on an `error` propagates the error. -/
@[simp] theorem bindE_error {α β : Type} (e : PyError)
    (f : α → Except PyError β) :
    ((Except.error e : Except PyError α) >>= f) = Except.error e := rfl

/-- `Except.map` on an `ok` value. -/
@[simp] theorem mapE_ok {α β : Type} (a : α) (f : α → β) :
    (Except.ok a : Except PyError α).map f = Except.ok (f a) := rfl

/-- `Except.map` on an `error`. -/
@[simp] theorem mapE_error {α β : Type} (e : PyError) (f : α → β) :
    (Except.error e : Except PyError α).map f = Except.error e := rfl

/-- `pure` on `Except` is `ok`. -/
@[simp] theorem pureE {α : Type} (a : α) :
    (pure a : Except PyError α) = Except.ok a := rfl

/-! ## Lemmas on dict access -/

/-- `getItem` finds an entry for every present key. -/
theorem getItem_ok_of_mem :
    ∀ (dict : List Param) (k : String), k ∈ dict.map Param.name →
      ∃ p, getItem dict k = .ok p ∧ p ∈ dict ∧ p.name = k := by
  intro dict
  induction dict with
  | nil => intro k h; simp at h
  | cons p rest ih =>
    intro k h
    by_cases hp : p.name = k
    · exact ⟨p, by simp [getItem, List.find?_cons, hp],
        List.mem_cons_self _ _, hp⟩
    · rw [List.map_cons] at h
      have h' : k ∈ rest.map Param.name := by
        rcases List.mem_cons.mp h with h0 | h0
        · exact absurd h0.symm hp
        · exact h0
      obtain ⟨q, hq, hqm, hqn⟩ := ih k h'
      refine ⟨q, ?_, List.mem_cons_of_mem _ hqm, hqn⟩
      simpa [getItem, List.find?_cons, hp] using hq

/-- With unique names, `getItem` at a member's name returns that member. -/
theorem getItem_nodup :
    ∀ (dict : List Param) (q : Param), (dict.map Param.name).Nodup →
      q ∈ dict → getItem dict q.name = .ok q := by
  intro dict
  induction dict with
  | nil => intro q _ hq; cases hq
  | cons p rest ih =>
    intro q hnd hq
    rw [List.map_cons, List.nodup_cons] at hnd
    rcases List.mem_cons.mp hq with h | h
    · subst h
      simp [getItem, List.find?_cons]
    · have hpq : ¬ p.name = q.name := by
        intro he
        exact hnd.1 (he ▸ List.mem_map_of_mem Param.name h)
      simpa [getItem, List.find?_cons, hpq] using ih q hnd.2 h

/-- `setValue` succeeds on every present key. -/
theorem setValue_ok_of_mem (k : String) (v : Value) :
    ∀ dict : List Param, k ∈ dict.map Param.name →
      ∃ d', setValue k v dict = .ok d' := by
  intro dict
  induction dict with
  | nil => intro h; simp at h
  | cons p rest ih =>
    intro h
    by_cases hp : p.name = k
    · exact ⟨{ p with value := v } :: rest, by rw [setValue, if_pos hp]⟩
    · rw [List.map_cons] at h
      have h' : k ∈ rest.map Param.name := by
        rcases List.mem_cons.mp h with h0 | h0
        · exact absurd h0.symm hp
        · exact h0
      obtain ⟨r, hr⟩ := ih h'
      exact ⟨p :: r, by rw [setValue, if_neg hp, hr]; rfl⟩

/-- What `setValue` does: names are preserved, and every slot either keeps
its entry or holds the old entry with only `value` replaced (possible only
for an entry named `k`). -/
theorem setValue_eq (k : String) (v : Value) :
    ∀ (dict d' : List Param), setValue k v dict = .ok d' →
      d'.map Param.name = dict.map Param.name ∧
      ∀ j : Nat, d'[j]? = dict[j]? ∨
        ∃ p : Param, dict[j]? = some p ∧ p.name = k ∧
          d'[j]? = some { p with value := v } := by
  intro dict
  induction dict with
  | nil => intro d' h; simp [setValue] at h
  | cons p rest ih =>
    intro d' h
    by_cases hp : p.name = k
    · rw [setValue, if_pos hp] at h
      injection h with h
      subst h
      refine ⟨by simp, fun j => ?_⟩
      cases j with
      | zero => exact Or.inr ⟨p, by simp, hp, by simp⟩
      | succ j => exact Or.inl (by simp)
    · rw [setValue, if_neg hp] at h
      cases hr : setValue k v rest with
      | error e => rw [hr] at h; simp at h
      | ok r =>
        rw [hr] at h
        simp at h
        subst h
        obtain ⟨hn, hpt⟩ := ih r hr
        refine ⟨by simp [hn], fun j => ?_⟩
        cases j with
        | zero => exact Or.inl (by simp)
        | succ j =>
          rcases hpt j with h1 | ⟨q, hq1, hq2, hq3⟩
          · exact Or.inl (by simpa using h1)
          · exact Or.inr ⟨q, by simpa using hq1, hq2, by simpa using hq3⟩

/-- After `d[k] = v`, reading `k` gives `v`. -/
theorem dictSet_lookup_self (r : List (String × PyClass)) (k : String)
    (v : PyClass) : lookupClass (dictSet r k v) k = some v := by
  induction r with
  | nil => simp [dictSet, lookupClass]
  | cons e rest ih =>
    obtain ⟨k', v'⟩ := e
    by_cases h : k' = k
    · simp [dictSet, h, lookupClass]
    · simpa [dictSet, h, lookupClass] using ih

/-- `d[k] = v` does not change other keys. -/
theorem dictSet_lookup_ne (r : List (String × PyClass)) (k n : String)
    (v : PyClass) (h : n ≠ k) :
    lookupClass (dictSet r k v) n = lookupClass r n := by
  induction r with
  | nil => simp [dictSet, lookupClass, Ne.symm h]
  | cons e rest ih =>
    obtain ⟨k', v'⟩ := e
    by_cases hk : k' = k
    · subst hk
      simp [dictSet, lookupClass, Ne.symm h]
    · by_cases hn : k' = n
      · simp [dictSet, hk, lookupClass, hn, h]
      · simpa [dictSet, hk, lookupClass, hn] using ih

/-- Storing `cls` under a list of names does not change keys outside the
list. -/
theorem foldl_dictSet_lookup_of_not_mem (cls : PyClass) :
    ∀ (names : List String) (r : List (String × PyClass)) (n : String),
      n ∉ names →
      lookupClass (names.foldl (fun acc m => dictSet acc m cls) r) n =
        lookupClass r n := by
  intro names
  induction names with
  | nil => intro r n _; rfl
  | cons m tail ih =>
    intro r n hn
    have hnm : n ≠ m := fun h => hn (h ▸ List.mem_cons_self m tail)
    have hnt : n ∉ tail := fun h => hn (List.mem_cons_of_mem m h)
    rw [List.foldl_cons]
    exact (ih (dictSet r m cls) n hnt).trans (dictSet_lookup_ne r m n cls hnm)

/-- After storing `cls` under every name of the list, every one of those
names reads back `cls`. -/
theorem foldl_dictSet_lookup (cls : PyClass) :
    ∀ (names : List String) (r : List (String × PyClass)) (n : String),
      n ∈ names →
      lookupClass (names.foldl (fun acc m => dictSet acc m cls) r) n =
        some cls := by
  intro names
  induction names with
  | nil => intro r n h; cases h
  | cons m tail ih =>
    intro r n hn
    by_cases ht : n ∈ tail
    · rw [List.foldl_cons]
      exact ih (dictSet r m cls) n ht
    · have hm : n = m := by
        rcases List.mem_cons.mp hn with h | h
        · exact h
        · exact absurd h ht
      subst hm
      rw [List.foldl_cons]
      exact (foldl_dictSet_lookup_of_not_mem cls tail (dictSet r n cls) n
        ht).trans (dictSet_lookup_self r n cls)

/-- Membership after `d[k] = v`: the stored value or an old entry. -/
theorem dictSet_mem (r : List (String × PyClass)) (k : String) (v : PyClass)
    (e : String × PyClass) (he : e ∈ dictSet r k v) : e.2 = v ∨ e ∈ r := by
  induction r with
  | nil =>
    simp [dictSet] at he
    subst he; left; rfl
  | cons e' rest ih =>
    obtain ⟨k', v'⟩ := e'
    by_cases h : k' = k
    · simp [dictSet, h] at he
      rcases he with he | he
      · subst he; left; rfl
      · right; exact List.mem_cons_of_mem _ he
    · simp [dictSet, h] at he
      rcases he with he | he
      · right; subst he; exact List.mem_cons_self _ _
      · rcases ih he with h' | h'
        · left; exact h'
        · right; exact List.mem_cons_of_mem _ h'

/-- Membership after storing `cls` under a list of names. -/
theorem foldl_dictSet_mem (cls : PyClass) :
    ∀ (names : List String) (r : List (String × PyClass))
      (e : String × PyClass),
      e ∈ names.foldl (fun acc m => dictSet acc m cls) r →
      e.2 = cls ∨ e ∈ r := by
  intro names
  induction names with
  | nil => intro r e he; right; exact he
  | cons m tail ih =>
    intro r e he
    rcases ih (dictSet r m cls) e (by simpa [List.foldl_cons] using he) with
      h | h
    · left; exact h
    · exact dictSet_mem r m cls e h

/-! ## Lemmas on `_unpack` -/

/-- `unpackGo` keeps the dict's key sequence, and every slot either keeps
its entry or holds an entry with the same name and scope whose name is
among the processed keys. -/
theorem unpackGo_pointwise (n : Nat) (packed : List ℚ) :
    ∀ (ks : List String) (dict : List Param) (i : Nat) (d' : List Param),
      unpackGo n packed dict i ks = .ok d' →
      d'.map Param.name = dict.map Param.name ∧
      ∀ j : Nat, d'[j]? = dict[j]? ∨
        ∃ p q : Param, dict[j]? = some p ∧ d'[j]? = some q ∧
          q.name = p.name ∧ q.scope = p.scope ∧ p.name ∈ ks := by
  intro ks
  induction ks with
  | nil =>
    intro dict i d' h
    rw [unpackGo] at h
    injection h with h
    subst h
    exact ⟨rfl, fun j => Or.inl rfl⟩
  | cons k ks ih =>
    intro dict i d' h
    rw [unpackGo] at h
    cases hg : getItem dict k with
    | error e => rw [hg] at h; simp at h
    | ok p =>
      rw [hg] at h
      simp [paramIsinstanceList] at h
      cases hx : getIndex packed i with
      | error e => rw [hx] at h; simp at h
      | ok x =>
        rw [hx] at h
        simp at h
        cases hs : setValue k (.scalar x) dict with
        | error e => rw [hs] at h; simp at h
        | ok d₁ =>
          rw [hs] at h
          simp at h
          obtain ⟨hn₁, hpt₁⟩ := setValue_eq k (.scalar x) dict d₁ hs
          obtain ⟨hn₂, hpt₂⟩ := ih d₁ (i + 1) d' h
          refine ⟨hn₂.trans hn₁, fun j => ?_⟩
          rcases hpt₂ j with h2 | ⟨p₁, q₁, hp₁, hq₁, e1, e2, e3⟩
          · rcases hpt₁ j with h1 | ⟨p₂, hp₂, hk₂, hq₂⟩
            · exact Or.inl (h2.trans h1)
            · exact Or.inr ⟨p₂, { p₂ with value := .scalar x }, hp₂,
                h2.trans hq₂, rfl, rfl,
                hk₂ ▸ List.mem_cons_self k ks⟩
          · rcases hpt₁ j with h1 | ⟨p₂, hp₂, hk₂, hq₂⟩
            · rw [h1] at hp₁
              exact Or.inr ⟨p₁, q₁, hp₁, hq₁, e1, e2,
                List.mem_cons_of_mem k e3⟩
            · rw [hq₂] at hp₁
              injection hp₁ with hp₁
              exact Or.inr ⟨p₂, q₁, hp₂, hq₁,
                e1.trans (hp₁ ▸ rfl), e2.trans (hp₁ ▸ rfl),
                hk₂ ▸ List.mem_cons_self k ks⟩

/-- Success, error and prefix-consumption behaviour of `unpackGo`: reads
happen at indices `i, i+1, ...`, one per remaining key; the vector's length
is never compared to anything. -/
theorem unpackGo_consume (n : Nat) :
    ∀ (ks : List String) (dict : List Param) (packed extra : List ℚ)
      (i : Nat), (∀ k ∈ ks, k ∈ dict.map Param.name) →
      (i + ks.length ≤ packed.length →
        (∃ d', unpackGo n packed dict i ks = .ok d') ∧
        unpackGo n (packed ++ extra) dict i ks =
          unpackGo n packed dict i ks) ∧
      (i ≤ packed.length → packed.length < i + ks.length →
        unpackGo n packed dict i ks = .error .indexError) := by
  intro ks
  induction ks with
  | nil =>
    intro dict packed extra i _
    refine ⟨fun _ => ⟨⟨dict, by rw [unpackGo]⟩, by rw [unpackGo, unpackGo]⟩,
      fun h1 h2 => ?_⟩
    simp at h2
    omega
  | cons k ks ih =>
    intro dict packed extra i hks
    have hk : k ∈ dict.map Param.name := hks k (List.mem_cons_self k ks)
    obtain ⟨p, hp, _, _⟩ := getItem_ok_of_mem dict k hk
    constructor
    · intro hlen
      have hi : i < packed.length := by simp at hlen; omega
      have hx : getIndex packed i = .ok packed[i] := by
        unfold getIndex
        rw [List.getElem?_eq_getElem hi]
      obtain ⟨d₂, hd₂⟩ :=
        setValue_ok_of_mem k (.scalar packed[i]) dict hk
      have hks' : ∀ k' ∈ ks, k' ∈ d₂.map Param.name := by
        intro k' hk'
        rw [(setValue_eq k (.scalar packed[i]) dict d₂ hd₂).1]
        exact hks k' (List.mem_cons_of_mem k hk')
      have hrec := ih d₂ packed extra (i + 1) hks'
      have hlen' : i + 1 + ks.length ≤ packed.length := by
        simp at hlen; omega
      obtain ⟨⟨d', hd'⟩, hext⟩ := hrec.1 hlen'
      constructor
      · refine ⟨d', ?_⟩
        rw [unpackGo, hp]
        simp [paramIsinstanceList]
        rw [hx]
        simp
        rw [hd₂]
        simpa using hd'
      · have hxe : getIndex (packed ++ extra) i = getIndex packed i := by
          unfold getIndex
          rw [List.getElem?_append_left hi]
        rw [unpackGo, unpackGo, hp]
        simp [paramIsinstanceList]
        rw [hxe, hx]
        simp
        rw [hd₂]
        simpa using hext
    · intro h1 h2
      by_cases hi : i < packed.length
      · have hx : getIndex packed i = .ok packed[i] := by
          unfold getIndex
          rw [List.getElem?_eq_getElem hi]
        obtain ⟨d₂, hd₂⟩ :=
          setValue_ok_of_mem k (.scalar packed[i]) dict hk
        have hks' : ∀ k' ∈ ks, k' ∈ d₂.map Param.name := by
          intro k' hk'
          rw [(setValue_eq k (.scalar packed[i]) dict d₂ hd₂).1]
          exact hks k' (List.mem_cons_of_mem k hk')
        have hrec := ih d₂ packed extra (i + 1) hks'
        have herr := hrec.2 (by omega) (by simp at h2; omega)
        rw [unpackGo, hp]
        simp [paramIsinstanceList]
        rw [hx]
        simp
        rw [hd₂]
        simpa using herr
      · have hx : getIndex packed i = .error .indexError := by
          unfold getIndex
          rw [List.getElem?_eq_none (by omega)]
        rw [unpackGo, hp]
        simp [paramIsinstanceList]
        rw [hx]
        simp

/-! ## Lemmas on `validate` -/

/-- What `validate`'s loop computes when it succeeds. -/
theorem classifyScopes_ok :
    ∀ (l : List Param) (ft fx : List String),
      classifyScopes l = .ok (ft, fx) →
      ft = (fittedParams l).map Param.name ∧
      fx = (l.filter (fun p => p.scope == "fixed")).map Param.name := by
  intro l
  induction l with
  | nil =>
    intro ft fx h
    rw [classifyScopes] at h
    injection h with h
    injection h with h1 h2
    simp [fittedParams, ← h1, ← h2]
  | cons p rest ih =>
    intro ft fx h
    rw [classifyScopes] at h
    by_cases hf : p.scope = "fitted"
    · rw [if_pos hf] at h
      cases hr : classifyScopes rest with
      | error e => rw [hr] at h; simp at h
      | ok pr =>
        obtain ⟨ft₁, fx₁⟩ := pr
        rw [hr] at h
        simp at h
        obtain ⟨h1, h2⟩ := ih ft₁ fx₁ hr
        rw [← h.1, ← h.2]
        constructor
        · simp [fittedParams, List.filter_cons, hf, h1]
        · simp [List.filter_cons, hf, h2]
    · rw [if_neg hf] at h
      by_cases hx : p.scope = "fixed"
      · rw [if_pos hx] at h
        cases hr : classifyScopes rest with
        | error e => rw [hr] at h; simp at h
        | ok pr =>
          obtain ⟨ft₁, fx₁⟩ := pr
          rw [hr] at h
          simp at h
          obtain ⟨h1, h2⟩ := ih ft₁ fx₁ hr
          rw [← h.1, ← h.2]
          constructor
          · simp [fittedParams, List.filter_cons, hf, h1]
          · simp [List.filter_cons, hx, h2]
      · rw [if_neg hx] at h
        simp at h

/-- What `validate` does when it succeeds: the dict and the curves are
untouched; `_fitted` and `_fixed` list the names of the parameters with
the respective scope, in declaration order. -/
theorem validate_eq (ps ps' : Parameters) (h : ps.validate = .ok ps') :
    ps'.params = ps.params ∧ ps'.curves = ps.curves ∧
    ps'.fitted = (fittedParams ps.params).map Param.name ∧
    ps'.fixed =
      (ps.params.filter (fun p => p.scope == "fixed")).map Param.name := by
  unfold Parameters.validate at h
  cases hc : classifyScopes ps.params with
  | error e => rw [hc] at h; simp at h
  | ok pr =>
    obtain ⟨ft, fx⟩ := pr
    rw [hc] at h
    simp at h
    obtain ⟨h1, h2⟩ := classifyScopes_ok ps.params ft fx hc
    rw [← h]
    exact ⟨rfl, rfl, h1, h2⟩

/-- Every `_fitted` name is a key of the dict. -/
theorem fittedNames_subset (l : List Param) :
    ∀ k ∈ (fittedParams l).map Param.name, k ∈ l.map Param.name := by
  intro k hk
  obtain ⟨p, hp, hpk⟩ := List.mem_map.mp hk
  exact hpk ▸ List.mem_map_of_mem Param.name (List.mem_of_mem_filter hp)

/-! ## Lemmas on `_pack` -/

/-- With unique keys, packing the names of a sublist of parameters yields
exactly their value blocks in order. -/
theorem packGo_fitted (dict : List Param)
    (hnd : (dict.map Param.name).Nodup) :
    ∀ qs : List Param, (∀ q ∈ qs, q ∈ dict) →
      packGo dict (qs.map Param.name) = .ok (qs.flatMap valueBlock) := by
  intro qs
  induction qs with
  | nil => intro _; rw [List.map_nil, packGo]; rfl
  | cons q qs ih =>
    intro hq
    have h1 : getItem dict q.name = .ok q :=
      getItem_nodup dict q hnd (hq q (List.mem_cons_self q qs))
    have h2 := ih (fun r hr => hq r (List.mem_cons_of_mem q hr))
    rw [List.map_cons, packGo, h1]
    simp
    rw [h2]
    simp
    cases hv : q.value with
    | scalar x => simp [valueBlock, hv, List.flatMap_cons]
    | list xs => simp [valueBlock, hv, List.flatMap_cons]

/-- The length of the packed vector, when every per-curve value holds one
element per curve. -/
theorem flatMap_valueBlock_length (n : Nat) :
    ∀ qs : List Param, (∀ q ∈ qs, perCurveLenOk n q = true) →
      (qs.flatMap valueBlock).length =
        qs.countP (fun p => !isListValue p.value) +
          n * qs.countP (fun p => isListValue p.value) := by
  intro qs
  induction qs with
  | nil => intro _; simp
  | cons q qs ih =>
    intro hq
    have hrec := ih (fun r hr => hq r (List.mem_cons_of_mem q hr))
    have hhead := hq q (List.mem_cons_self q qs)
    rw [List.flatMap_cons, List.length_append, hrec,
      List.countP_cons, List.countP_cons]
    cases hv : q.value with
    | scalar x =>
      simp [valueBlock, hv, isListValue]
      ring
    | list xs =>
      rw [perCurveLenOk, hv] at hhead
      simp at hhead
      simp [valueBlock, hv, isListValue, hhead]
      ring

/-- Each fitted name contributes at least one element to the packed
vector when per-curve values have one element per curve and there is at
least one curve. -/
theorem flatMap_valueBlock_length_ge (n : Nat) (hn : 0 < n)
    (qs : List Param) (hq : ∀ q ∈ qs, perCurveLenOk n q = true) :
    qs.length ≤ (qs.flatMap valueBlock).length := by
  rw [flatMap_valueBlock_length n qs hq,
    List.length_eq_countP_add_countP (fun p => !isListValue p.value) qs]
  have hc : qs.countP (fun p => decide ¬(!isListValue p.value) = true) =
      qs.countP (fun p => isListValue p.value) := by
    apply List.countP_congr
    intro p _
    cases isListValue p.value <;> simp
  rw [hc]
  have := Nat.le_mul_of_pos_left
    (qs.countP (fun p => isListValue p.value)) hn
  omega

/-! ## Inversion of `fit` -/

/-- A successful `fit` decomposes into a successful `validate`, a solver
vector, and a successful final `unpack`. -/
theorem fit_ok_inv (leastsq : Leastsq) (curves : List Curve)
    (mdl : ModelFn) (ps ps'' : Parameters)
    (h : fit leastsq curves mdl ps = .ok ps'') :
    ∃ (ps' : Parameters) (v : List ℚ),
      ps.validate = .ok ps' ∧ ps'.unpack v = .ok ps'' := by
  unfold fit deepcopyParams fitBody at h
  cases hv : ps.validate with
  | error e => rw [hv] at h; simp at h
  | ok ps' =>
    rw [hv] at h
    simp at h
    cases hp : ps'.pack with
    | error e => rw [hp] at h; simp at h
    | ok p0 =>
      rw [hp] at h
      simp at h
      cases hs : leastsq (fun p => computeError p curves ps' mdl) p0 with
      | error e => rw [hs] at h; simp at h
      | ok res =>
        rw [hs] at h
        simp at h
        cases hc : res.cov_x with
        | none => rw [hc] at h; simp at h
        | some c =>
          rw [hc] at h
          exact ⟨ps', res.p, rfl, h⟩

/-! ## Claim theorems (first batch) -/

/-- C1 (code bug): on a validated container with a per-curve fitted
parameter, `unpack(pack())` does not restore the container: `_unpack`
tests `isinstance(self[k], list)` on the `Parameter` object instead of on
its `value`, so `a`'s value `[1, 2]` comes back as the scalar `1` and `b`'s
value `5` comes back as `2`. -/
theorem roundtrip_perCurve_bug :
    psRT.validate = .ok psRTv ∧ psRTv.pack = .ok [1, 2, 5] ∧
      psRTv.unpack [1, 2, 5] = .ok psRTbad ∧ psRTbad ≠ psRTv := by decide

/-- C2 (code bug): `_curve_params` raises `NameError` on any container
holding a list-valued parameter, for the in-range curve index 0: its body
reads the unbound name `i` instead of its argument `curve`. -/
theorem curveParams_nameError_bug :
    0 < psCP.curves.length ∧ psCP.curveParams 0 = .error .nameError := by
  decide

/-- C5: `fit` deep-copies the container before doing anything else, so the
caller's object is returned to the caller unchanged whatever the call's
outcome; the call's result is computed from the copy. -/
theorem fit_preserves_caller (leastsq : Leastsq) (curves : List Curve)
    (mdl : ModelFn) (ps : Parameters) :
    fitWithCaller leastsq curves mdl ps = (fit leastsq curves mdl ps, ps) :=
  rfl

/-- C6 (counterexample): a validated container whose packed vector has
length 1 accepts the oversized vector `[3, 9]` without any error, silently
ignoring the trailing element — it does not fail loudly. -/
theorem unpack_length_counterexample :
    psLen.validate = .ok psLenV ∧ psLenV.pack = .ok [3] ∧
      psLenV.unpack [3, 9] = .ok psLenV := by decide

/-- C7 (counterexample): `fit` on a container with an invalid scope raises
`RuntimeError('Invalid scope')` even though the solver it is given reports
a present covariance on every input — so `fit` can raise without the
solver ever reporting an absent covariance. -/
theorem fit_raises_counterexample :
    fit leastsq0 [cv0] mdl0 psBadScope =
        .error (.runtimeError "Invalid scope") ∧
      leastsq0 (fun v => computeError v [cv0] psBadScope mdl0) [] =
        .ok ⟨[], some [[1]]⟩ :=
  ⟨rfl, rfl⟩

/-- C9 (counterexample): registering `clsB` under the name `m`, already
bound to `clsA`, raises no error and silently overwrites the earlier
registration — it does not fail fast. -/
theorem register_duplicate_counterexample :
    dictSet [] "m" clsA = [("m", clsA)] ∧
      registerModel ["m"] clsB [("m", clsA)] = .ok (clsB, [("m", clsB)]) := by
  decide

/-- C9 (amended): registering a `Model` subclass under any list of names —
already present or not — succeeds, stores the class under every one of the
names by plain dict assignment, and thereby silently overwrites any
earlier registration under the same name. -/
theorem register_duplicate_amended (names : List String) (cls : PyClass)
    (registry : List (String × PyClass)) (h : cls.inheritsModel = true) :
    registerModel names cls registry =
        .ok (cls, names.foldl (fun acc n => dictSet acc n cls) registry) ∧
      ∀ n ∈ names,
        lookupClass (names.foldl (fun acc n => dictSet acc n cls) registry)
          n = some cls := by
  constructor
  · simp [registerModel, h]
  · intro n hn
    exact foldl_dictSet_lookup cls names registry n hn

/-- Witness for `register_duplicate_amended` at a duplicate name. -/
theorem register_duplicate_amended_witness :
    registerModel ["m"] clsB [("m", clsA)] = .ok (clsB, [("m", clsB)]) ∧
      lookupClass [("m", clsB)] "m" = some clsB :=
  ⟨(register_duplicate_amended ["m"] clsB [("m", clsA)] rfl).1,
   (register_duplicate_amended ["m"] clsB [("m", clsA)] rfl).2 "m"
     (by simp)⟩

/-- C10: the decorator returned by `register_model` raises before touching
the registry whenever the class does not inherit from `Model` (the caller's
registry is unchanged on that path), and consequently registering preserves
the invariant that every stored value is a `Model` subclass. -/
theorem register_guard (names : List String) (cls : PyClass)
    (registry : List (String × PyClass)) :
    (cls.inheritsModel = false →
        registerModel names cls registry =
          .error (.exception "Registering model that doesn't inherit from model")) ∧
      ∀ cls' r', registerModel names cls registry = .ok (cls', r') →
        (∀ e ∈ registry, e.2.inheritsModel = true) →
        ∀ e ∈ r', e.2.inheritsModel = true := by
  constructor
  · intro h
    simp [registerModel, h]
  · intro cls' r' hok hinv e he
    by_cases h : cls.inheritsModel
    · simp [registerModel, h] at hok
      rcases foldl_dictSet_mem cls names registry e (hok.2 ▸ he) with h' | h'
      · rw [h']; exact h
      · exact hinv e h'
    · simp [registerModel, h] at hok

/-- Witness for `register_guard`: the non-subclass is rejected, and a
successful registration keeps the registry all-`Model`. -/
theorem register_guard_witness :
    registerModel ["m"] clsBad [] =
        .error (.exception "Registering model that doesn't inherit from model") ∧
      ∀ e ∈ [("m", clsB)], e.2.inheritsModel = true :=
  ⟨(register_guard ["m"] clsBad []).1 rfl,
   (register_guard ["m"] clsB []).2 clsB [("m", clsB)] rfl (by simp)⟩

/-! ## Claim theorems (second batch) -/

/-- C3: for a validated container with unique parameter names whose
per-curve fitted values hold one element per curve, `pack()` returns the
fitted parameters' value blocks in declaration order (per-curve values in
curve order), and its length is the number of scalar fitted parameters
plus the number of curves times the number of per-curve fitted
parameters. -/
theorem pack_shape (ps ps' : Parameters)
    (hval : ps.validate = .ok ps')
    (hnd : (ps.params.map Param.name).Nodup)
    (hvl : ∀ p ∈ ps.params, p.scope = "fitted" →
      perCurveLenOk ps.curves.length p = true) :
    ps'.pack = .ok ((fittedParams ps.params).flatMap valueBlock) ∧
    ((fittedParams ps.params).flatMap valueBlock).length =
      (fittedParams ps.params).countP (fun p => !isListValue p.value) +
        ps.curves.length *
          (fittedParams ps.params).countP (fun p => isListValue p.value) := by
  obtain ⟨hpar, _, hfit', _⟩ := validate_eq ps ps' hval
  have hsub : ∀ q ∈ fittedParams ps.params, q ∈ ps.params :=
    fun q hq => List.mem_of_mem_filter hq
  have hql : ∀ q ∈ fittedParams ps.params,
      perCurveLenOk ps.curves.length q = true := by
    intro q hq
    refine hvl q (hsub q hq) ?_
    simpa using List.of_mem_filter hq
  constructor
  · unfold Parameters.pack
    rw [hpar, hfit']
    exact packGo_fitted ps.params hnd (fittedParams ps.params) hsub
  · exact flatMap_valueBlock_length ps.curves.length
      (fittedParams ps.params) hql

/-- Witness for `pack_shape` on a mixed container with two curves. -/
theorem pack_shape_witness :
    psShapeV.pack = .ok [3, 1, 2] ∧ (3 : Nat) = 1 + 2 * 1 :=
  ⟨(pack_shape psShape psShapeV (by decide) (by decide) (by decide)).1,
   (pack_shape psShape psShapeV (by decide) (by decide) (by decide)).2⟩

/-- C4: whatever the solver does, a successful `fit` never changes a
parameter whose scope is `fixed` in the returned container; slot by slot,
such parameters are exactly what the caller passed in. -/
theorem fit_fixed_immune (leastsq : Leastsq) (curves : List Curve)
    (mdl : ModelFn) (ps ps'' : Parameters)
    (hnd : (ps.params.map Param.name).Nodup)
    (hfit : fit leastsq curves mdl ps = .ok ps'') :
    ∀ (j : Nat) (p' : Param), ps''.params[j]? = some p' →
      p'.scope = "fixed" → ps.params[j]? = some p' := by
  obtain ⟨ps', v, hval, hunp⟩ := fit_ok_inv leastsq curves mdl ps ps'' hfit
  obtain ⟨hpar, _, hfit', _⟩ := validate_eq ps ps' hval
  unfold Parameters.unpack at hunp
  cases hu : unpackGo ps'.curves.length v ps'.params 0 ps'.fitted with
  | error e => rw [hu] at hunp; simp at hunp
  | ok d' =>
    rw [hu] at hunp
    simp at hunp
    obtain ⟨_, hpt⟩ := unpackGo_pointwise ps'.curves.length v ps'.fitted
      ps'.params 0 d' hu
    intro j p' hj hsc
    have hj' : d'[j]? = some p' := by
      rw [← hunp] at hj
      simpa using hj
    rcases hpt j with h1 | ⟨p, q, hp, hq, e1, e2, e3⟩
    · rw [← hpar]
      exact h1.symm.trans hj'
    · exfalso
      have hq' : q = p' := by
        rw [hq] at hj'
        injection hj'
      rw [hfit'] at e3
      obtain ⟨p₂, hp₂f, hp₂n⟩ := List.mem_map.mp e3
      have hp₂mem : p₂ ∈ ps.params := List.mem_of_mem_filter hp₂f
      have hp₂sc : p₂.scope = "fitted" := by
        simpa using List.of_mem_filter hp₂f
      have hpmem : p ∈ ps.params := by
        rw [hpar] at hp
        exact List.get?_mem (by simpa using hp)
      have hpe : p = p₂ :=
        List.inj_on_of_nodup_map hnd hpmem hp₂mem hp₂n.symm
      have hcontra : p'.scope = "fitted" := by
        rw [← hq', e2, hpe, hp₂sc]
      rw [hsc] at hcontra
      exact absurd hcontra (by decide)

/-- Witness for `fit_fixed_immune`: the fixed parameter `b` of `psMix`
survives a full `fit` unchanged. -/
theorem fit_fixed_immune_witness :
    psMix.params[1]? = some ⟨"b", "fixed", Value.scalar 7⟩ :=
  fit_fixed_immune leastsq0 [cv0] mdl0 psMix psMixV (by decide) rfl 1
    ⟨"b", "fixed", Value.scalar 7⟩ (by decide) rfl

/-- C6 (amended): for a validated container, `_unpack` consumes one
element per fitted parameter and never checks the vector's length: a
vector with at least that many elements is accepted, trailing elements
being silently ignored, while a shorter vector raises `IndexError` (from
the out-of-range read, not from a length check). -/
theorem unpack_length_amended (ps ps' : Parameters) (packed extra : List ℚ)
    (hval : ps.validate = .ok ps') :
    (ps'.fitted.length ≤ packed.length →
      ps'.unpack (packed ++ extra) = ps'.unpack packed ∧
      ∃ r, ps'.unpack packed = .ok r) ∧
    (packed.length < ps'.fitted.length →
      ps'.unpack packed = .error .indexError) := by
  obtain ⟨hpar, _, hfit', _⟩ := validate_eq ps ps' hval
  have hks : ∀ k ∈ ps'.fitted, k ∈ ps'.params.map Param.name := by
    intro k hk
    rw [hpar]
    exact fittedNames_subset ps.params k (hfit' ▸ hk)
  have H := unpackGo_consume ps'.curves.length ps'.fitted ps'.params packed
    extra 0 hks
  constructor
  · intro hlen
    obtain ⟨⟨d', hd'⟩, hext⟩ := H.1 (by omega)
    refine ⟨?_, ⟨{ ps' with params := d' }, ?_⟩⟩
    · unfold Parameters.unpack
      rw [hext]
    · unfold Parameters.unpack
      rw [hd']
      rfl
  · intro hlen
    have herr := H.2 (by omega) (by omega)
    unfold Parameters.unpack
    rw [herr]
    rfl

/-- Witness for `unpack_length_amended`: one fitted parameter; the
oversized vector `[3, 9]` behaves like `[3]`, and the empty vector raises
`IndexError`. -/
theorem unpack_length_amended_witness :
    psLenV.unpack ([3] ++ [9]) = psLenV.unpack [3] ∧
      (∃ r, psLenV.unpack [3] = .ok r) ∧
      psLenV.unpack [] = .error .indexError :=
  ⟨((unpack_length_amended psLen psLenV [3] [9] (by decide)).1
      (by decide)).1,
   ((unpack_length_amended psLen psLenV [3] [9] (by decide)).1
      (by decide)).2,
   (unpack_length_amended psLen psLenV [] [] (by decide)).2 (by decide)⟩

/-- C7 (amended): for a container that validates successfully (unique
names, at least one curve, per-curve values of the curves' length) and a
solver call that returns normally with a vector of the packed length,
`fit` raises the convergence error exactly when the solver reports no
covariance; with a covariance present it unpacks the solver's final
vector into the working copy and returns it. -/
theorem fit_convergence_amended (leastsq : Leastsq) (curves : List Curve)
    (mdl : ModelFn) (ps ps' : Parameters) (p0 : List ℚ) (res : SolverResult)
    (hval : ps.validate = .ok ps')
    (hnd : (ps.params.map Param.name).Nodup)
    (hcn : ps.curves ≠ [])
    (hvl : ∀ p ∈ ps.params, p.scope = "fitted" →
      perCurveLenOk ps.curves.length p = true)
    (hpack : ps'.pack = .ok p0)
    (hsol : leastsq (fun p => computeError p curves ps' mdl) p0 = .ok res)
    (hlen : res.p.length = p0.length) :
    (res.cov_x = none →
      fit leastsq curves mdl ps =
        .error (.runtimeError "Fit failed to converge (flat axis)")) ∧
    (∀ c, res.cov_x = some c →
      ∃ ps'', ps'.unpack res.p = .ok ps'' ∧
        fit leastsq curves mdl ps = .ok ps'') := by
  have hn0 : 0 < ps.curves.length := List.length_pos.mpr hcn
  obtain ⟨hpar, _, hfit', _⟩ := validate_eq ps ps' hval
  have hsub : ∀ q ∈ fittedParams ps.params, q ∈ ps.params :=
    fun q hq => List.mem_of_mem_filter hq
  have hpk : ps'.pack = .ok ((fittedParams ps.params).flatMap valueBlock) := by
    unfold Parameters.pack
    rw [hpar, hfit']
    exact packGo_fitted ps.params hnd (fittedParams ps.params) hsub
  have hp0 : p0 = (fittedParams ps.params).flatMap valueBlock := by
    rw [hpack] at hpk
    injection hpk
  have hql : ∀ q ∈ fittedParams ps.params,
      perCurveLenOk ps.curves.length q = true := by
    intro q hq
    refine hvl q (hsub q hq) ?_
    simpa using List.of_mem_filter hq
  have hge : ps'.fitted.length ≤ res.p.length := by
    rw [hlen, hp0, hfit', List.length_map]
    exact flatMap_valueBlock_length_ge ps.curves.length hn0 _ hql
  have hks : ∀ k ∈ ps'.fitted, k ∈ ps'.params.map Param.name := by
    intro k hk
    rw [hpar]
    exact fittedNames_subset ps.params k (hfit' ▸ hk)
  obtain ⟨⟨d', hd'⟩, _⟩ :=
    (unpackGo_consume ps'.curves.length ps'.fitted ps'.params res.p [] 0
      hks).1 (by omega)
  have hup : ps'.unpack res.p = .ok { ps' with params := d' } := by
    unfold Parameters.unpack
    rw [hd']
    rfl
  constructor
  · intro hc
    unfold fit deepcopyParams fitBody
    rw [hval]
    simp
    rw [hpack]
    simp
    rw [hsol]
    simp
    rw [hc]
  · intro c hc
    refine ⟨{ ps' with params := d' }, hup, ?_⟩
    unfold fit deepcopyParams fitBody
    rw [hval]
    simp
    rw [hpack]
    simp
    rw [hsol]
    simp
    rw [hc]
    exact hup

/-- Witness for `fit_convergence_amended` with a covariance present. -/
theorem fit_convergence_amended_witness :
    ∃ ps'', psMixV.unpack [3] = .ok ps'' ∧
      fit leastsq0 [cv0] mdl0 psMix = .ok ps'' :=
  (fit_convergence_amended leastsq0 [cv0] mdl0 psMix psMixV [3]
      ⟨[3], some [[1]]⟩ (by decide) (by decide) (by decide) (by decide)
      (by decide) rfl rfl).2 [[1]] rfl

/-- Pushing a leading block through `map List.flatten`. -/
theorem mapFlatten_bind (e : Except PyError (List (List ℚ))) (B : List ℚ) :
    (e.map List.flatten >>= fun r => Except.ok (B ++ r)) =
      (e >>= fun as => pure (B :: as)).map List.flatten := by
  cases e with
  | error err => rfl
  | ok as => rfl

/-- The loop of `_compute_error` started at any index agrees with the
specification's description of the residual. -/
theorem computeErrorGo_spec (psU : Parameters) (mdl : ModelFn) :
    ∀ (cs : List Curve) (i : Nat),
      computeErrorGo psU mdl i cs =
        ((List.enumFrom i cs).mapM fun (ic : Nat × Curve) => do
          let cp ← psU.curveParams ic.1
          pure (ewDiv (ewSub ic.2.G (mdl cp ic.2.lag)) (ewSq ic.2.var))).map
          List.flatten := by
  intro cs
  induction cs with
  | nil => intro i; rfl
  | cons c rest ih =>
    intro i
    rw [computeErrorGo, List.enumFrom_cons, List.mapM_cons]
    cases hcp : psU.curveParams i with
    | error e => simp
    | ok cp =>
      simp
      rw [ih (i + 1)]
      exact mapFlatten_bind _ _

/-- C8: the residual function `fit` hands to the solver computes, for each
curve in order, the element-wise `(G - model(curve_params(i), lag))`
divided by `var` squared, and concatenates the per-curve vectors in curve
order — exactly the specification's residual on the unpacked container. -/
theorem computeError_matches_spec (p : List ℚ) (curves : List Curve)
    (ps psU : Parameters) (mdl : ModelFn) (hunp : ps.unpack p = .ok psU) :
    computeError p curves ps mdl = specResidual psU mdl curves := by
  unfold computeError specResidual
  rw [hunp]
  simp
  rw [List.enum_eq_enumFrom]
  exact computeErrorGo_spec psU mdl curves 0

/-- Witness for `computeError_matches_spec` on a one-point curve. -/
theorem computeError_matches_spec_witness :
    computeError [3] [cv1] psMixV mdl0 = specResidual psMixV mdl0 [cv1] :=
  computeError_matches_spec [3] [cv1] psMixV psMixV mdl0 (by decide)
